import Mathlib

/-!
Shallow embedding of `src/simulation/simulate_sandwich.py` (repository
`jspacek/sandwich`), and theorems about the claims of its specification.

Modelling conventions:

* Proxies are identified by their bootstrap index: the Python object created as
  `'Proxy %d' % i` is the natural number `i`.  Python compares proxies by object
  identity and the bootstrap names are distinct, so the index is a faithful key.
* The mutable per-proxy queue lives in the external `util.Proxy` collaborator;
  the core only ever reads `len(p.queue)`.  Each operation therefore receives a
  snapshot `queueLen : ℕ → ℕ` giving the current queue length of every proxy.
* `random.randint` draws are modelled by a stream `rnd : ℕ → ℕ` together with a
  cursor position: one `randint` call reads `rnd pos` and advances the cursor by
  one.  Theorems that need a draw to lie in `randint`'s inclusive range state
  that as a hypothesis.
* The module-level global `panic_level` is reset to `0` by `run` and touched by
  exactly one distributor per run, so it is carried as a field of the run state.
* `env.process(proxy.service(client))` (starting a service process) is recorded
  in the `services` field; the service process itself belongs to the external
  `util.Proxy` collaborator and records no events.
* `env.exit()` on proxy depletion, and the scheduler semantics of §4.1 of the
  spec ("termination immediately stops processing of all other pending
  events"), are modelled by the `terminated` flag: once it is set no further
  operation applies.  The scheduler (`simpy`) is an external collaborator.
* Python `list.remove` removes the first occurrence and raises if the element
  is absent; it is modelled by `List.erase` guarded by a membership test, with
  the raising case mapped to `Option.none` (the run has no successor state).
-/

namespace Sandwich

/-- The six actions recorded in events by `simulate_sandwich.py`
(`ENUMERATE_PROXY`, `MISS_ENUMERATE_PROXY`, `EXPOSE_CLIENT`, `PROXY_BLOCK`,
`MISS_PROXY_BLOCK`, `PROXY_DEATH`). -/
inductive Action where
  | ENUMERATE_PROXY
  | MISS_ENUMERATE_PROXY
  | EXPOSE_CLIENT
  | PROXY_BLOCK
  | MISS_PROXY_BLOCK
  | PROXY_DEATH
deriving DecidableEq, Repr

/-- Modelled from the spec: the `Event` record built by `util.create_event`
(file `core/util.py`, which is not under `src/`).  The spec defines **Event**
as the immutable record
`{time, action, active_proxy_ids, blocked_proxy_ids, subject_proxy, system_health}`. -/
structure Event where
  time : ℚ
  action : Action
  active_ids : List ℕ
  blocked_ids : List ℕ
  subject : ℕ
  system_health : ℚ
deriving DecidableEq, Repr

/-- Modelled from the spec: `util.create_event` (not under `src/`) packages its
six arguments into an immutable `Event` record. -/
def create_event (time : ℚ) (action : Action) (active blocked : List ℕ)
    (subject : ℕ) (system_health : ℚ) : Event :=
  { time := time, action := action, active_ids := active, blocked_ids := blocked,
    subject := subject, system_health := system_health }

/-- State of one simulation run: the Distributor's fields (`self.proxies`,
`self.blocked`, `self.events`), the Censor's fields (`self.proxies` =
`cen_proxies`, `self.blocked` = `cen_blocked`, `self.events` = `cen_events`),
the module-level global `panic_level` (reset to `0` by `run`), the service
processes started so far (`env.process(p.service(client))` calls, as
`(proxy, client)` pairs), and the `terminated` flag (set when `env.exit()`
ends the run on proxy depletion). -/
structure SimState where
  proxies : List ℕ
  blocked : List ℕ
  panic_level : ℕ
  events : List Event
  cen_proxies : List ℕ
  cen_blocked : List ℕ
  cen_events : List Event
  services : List (ℕ × ℕ)
  terminated : Bool
deriving DecidableEq, Repr

/-- Stable insertion of `a` into a list already sorted by `queueLen`
descending: `a` is placed before the first element whose queue is not longer
than `a`'s, so elements with equal queue length keep their original order. -/
def insertByQueueDesc (queueLen : ℕ → ℕ) (a : ℕ) : List ℕ → List ℕ
  | [] => [a]
  | b :: l => if queueLen b ≤ queueLen a then a :: b :: l else b :: insertByQueueDesc queueLen a l

/-- `sorted(proxies, key=lambda p: len(p.queue), reverse=True)`: Python's
`sorted` is stable, and a stable sort's output is uniquely determined, so
stable insertion sort computes exactly the same list. -/
def sortByQueueDesc (queueLen : ℕ → ℕ) : List ℕ → List ℕ
  | [] => []
  | a :: l => insertByQueueDesc queueLen a (sortByQueueDesc queueLen l)

/-- `Distributor.assign(client)`.  Returns `(new state, chosen proxy, new
random-stream cursor)`; `none` models the `env.exit()` taken when no active
proxy remains (the call never returns a proxy there).  `vset` is
`util.VICTIM_SET`, a fixed module constant of `core/util.py` (not under
`src/`), modelled from the spec as a parameter ("a fixed configuration
divisor").  The `let sorted_proxies` binding mirrors the source, which
computes this sorted list and never reads it. -/
def assign (vset : ℕ) (s : SimState) (queueLen : ℕ → ℕ) (rnd : ℕ → ℕ)
    (pos : ℕ) (client : ℕ) : Option (SimState × ℕ × ℕ) :=
  if s.proxies.length = 0 then
    none
  else
    let random_index_1 := rnd pos
    let random_index_2 := rnd (pos + 1)
    let random_proxy_1 := s.proxies.getD random_index_1 0
    let random_proxy_2 := s.proxies.getD random_index_2 0
    if s.panic_level > 0 then
      let sorted_proxies := sortByQueueDesc queueLen s.proxies
      let victim_size := s.proxies.length / vset
      if victim_size > 0 then
        let random_index_1 := rnd (pos + 2)
        let random_proxy_1 := s.proxies.getD random_index_1 0
        some ({ s with services := s.services ++ [(random_proxy_1, client)] },
              random_proxy_1, pos + 3)
      else
        some (s, s.proxies.getD 0 0, pos + 2)
    else
      if queueLen random_proxy_1 > queueLen random_proxy_2 then
        some ({ s with services := s.services ++ [(random_proxy_2, client)] },
              random_proxy_2, pos + 2)
      else
        some ({ s with services := s.services ++ [(random_proxy_1, client)] },
              random_proxy_1, pos + 2)

/-- `Distributor.notify_block(proxy)`.  `none` models the `ValueError` that
Python's `self.proxies.remove(proxy)` raises when the proxy is in neither
list; `terminated := true` models the `env.exit()` after `PROXY_DEATH`. -/
def notify_block (s : SimState) (time : ℚ) (proxy : ℕ) : Option SimState :=
  if proxy ∈ s.blocked then
    let system_health : ℚ :=
      (1 - (s.blocked.length : ℚ) / ((s.proxies.length : ℚ) + (s.blocked.length : ℚ))) * 100
    some { s with
           events := s.events ++
             [create_event time Action.MISS_PROXY_BLOCK s.proxies s.blocked proxy system_health] }
  else if proxy ∈ s.proxies then
    let blocked' := s.blocked ++ [proxy]
    let proxies' := s.proxies.erase proxy
    if proxies'.length = 0 then
      some { s with
             proxies := proxies',
             blocked := blocked',
             events := s.events ++
               [create_event time Action.PROXY_DEATH proxies' blocked' proxy 0],
             terminated := true }
    else
      let system_health : ℚ :=
        (1 - (blocked'.length : ℚ) / ((proxies'.length : ℚ) + (blocked'.length : ℚ))) * 100
      let panic' := if blocked'.length > proxies'.length then s.panic_level + 1 else s.panic_level
      some { s with
             proxies := proxies',
             blocked := blocked',
             panic_level := panic',
             events := s.events ++
               [create_event time Action.PROXY_BLOCK proxies' blocked' proxy system_health] }
  else
    none

/-- `Censor.enumerate(proxy)`: add an unknown, unblocked proxy to the censor's
known set and record `ENUMERATE_PROXY`; otherwise record
`MISS_ENUMERATE_PROXY`.  The event snapshots the censor's own lists (the
source passes `self.proxies`/`self.blocked` of the Censor). -/
def enumerate (s : SimState) (time : ℚ) (proxy : ℕ) : SimState :=
  if proxy ∉ s.cen_proxies ∧ proxy ∉ s.cen_blocked then
    let known' := s.cen_proxies ++ [proxy]
    { s with
      cen_proxies := known',
      cen_events := s.cen_events ++
        [create_event time Action.ENUMERATE_PROXY known' s.cen_blocked proxy 0] }
  else
    { s with
      cen_events := s.cen_events ++
        [create_event time Action.MISS_ENUMERATE_PROXY s.cen_proxies s.cen_blocked proxy 0] }

/-- `client_arrival(env, name, ...)`: assign a proxy to the new client, then
either report it to the censor (malicious client) or record `EXPOSE_CLIENT`
in the distributor's log when the proxy is already known to the censor. -/
def client_arrival (vset : ℕ) (s : SimState) (time : ℚ) (client : ℕ)
    (malicious : Bool) (queueLen : ℕ → ℕ) (rnd : ℕ → ℕ) (pos : ℕ) :
    Option (SimState × ℕ) :=
  match assign vset s queueLen rnd pos client with
  | none => none
  | some (s1, proxy, pos') =>
    if malicious then
      some (enumerate s1 time proxy, pos')
    else if proxy ∈ s1.cen_proxies then
      some ({ s1 with
              events := s1.events ++
                [create_event time Action.EXPOSE_CLIENT s1.proxies s1.blocked proxy 0] }, pos')
    else
      some (s1, pos')

/-- One iteration of the body of `Censor._block` after the bootstrap delay:
when the known set is non-empty, sort it by queue length descending, take its
head, move it from the known set to the censor's blocked set and (modelled
from the spec §4.6: the block transition of `util.Proxy`, not under `src/`,
notifies the Distributor) call `notify_block` on it. -/
def censor_block_step (s : SimState) (time : ℚ) (queueLen : ℕ → ℕ) :
    Option SimState :=
  if s.cen_proxies = [] then
    some s
  else
    let sorted := sortByQueueDesc queueLen s.cen_proxies
    let block_proxy := sorted.headD 0
    let s1 := { s with
                cen_proxies := sorted.erase block_proxy,
                cen_blocked := s.cen_blocked ++ [block_proxy] }
    notify_block s1 time block_proxy

/-- One scheduled occurrence in a run: a client arrival (one iteration of
`generate_clients` / `client_arrival`) or one iteration of the censor's
blocking loop.  Every operation carries the virtual time at which it runs and
a snapshot of the external queue lengths at that time. -/
inductive Op where
  | arrival (time : ℚ) (client : ℕ) (malicious : Bool) (queueLen rnd : ℕ → ℕ)
  | censorBlock (time : ℚ) (queueLen : ℕ → ℕ)

/-- Apply one operation.  A terminated state accepts no operation: the
spec (§4.1) has the termination signal stop all pending processing. -/
def applyOp (vset : ℕ) (s : SimState) : Op → Option SimState
  | Op.arrival time client malicious queueLen rnd =>
    if s.terminated then none
    else (client_arrival vset s time client malicious queueLen rnd 0).map Prod.fst
  | Op.censorBlock time queueLen =>
    if s.terminated then none
    else censor_block_step s time queueLen

/-- Apply a list of operations in order. -/
def runOps (vset : ℕ) : SimState → List Op → Option SimState
  | s, [] => some s
  | s, op :: ops =>
    match applyOp vset s op with
    | none => none
    | some s' => runOps vset s' ops

/-- The initial state of `run`: `Distributor.__init__`/`_bootstrap` creates
proxies `0, …, num_proxies - 1` with empty blocked list and empty log, the
Censor starts with empty known/blocked sets and an empty log, and `run`
resets the global `panic_level` to `0`. -/
def bootstrap (num_proxies : ℕ) : SimState :=
  { proxies := List.range num_proxies, blocked := [], panic_level := 0,
    events := [], cen_proxies := [], cen_blocked := [], cen_events := [],
    services := [], terminated := false }

/-- The value returned by `run`: `distributor.events + censor.events`. -/
def run_result (dist_events cen_events : List Event) : List Event :=
  dist_events ++ cen_events

/-- A list of events ordered by non-decreasing time. -/
def Chronological (l : List Event) : Prop :=
  l.Pairwise (fun a b => a.time ≤ b.time)

instance (l : List Event) : Decidable (Chronological l) :=
  List.instDecidablePairwise l

/-- Number of `PROXY_DEATH` events in a log. -/
def deathCount (l : List Event) : ℕ :=
  l.countP (fun e => e.action == Action.PROXY_DEATH)

/-- The virtual time at which an operation runs (`env.now` during the call). -/
def opTime : Op → ℚ
  | Op.arrival t _ _ _ _ => t
  | Op.censorBlock t _ => t

/-- Distributor collection invariant: the active list has no duplicates and is
disjoint from the blocked list. -/
def DistInv (s : SimState) : Prop :=
  s.proxies.Nodup ∧ ∀ x ∈ s.proxies, x ∉ s.blocked

/-- Termination/death invariant: while the run is live its log holds no
`PROXY_DEATH` and some proxy is active; once terminated the log ends in its
unique `PROXY_DEATH` event (with `system_health = 0`); the censor's log never
holds a `PROXY_DEATH`. -/
def DeathInv (s : SimState) : Prop :=
  (s.terminated = false → deathCount s.events = 0 ∧ s.proxies ≠ []) ∧
  (s.terminated = true → ∃ pre e, s.events = pre ++ [e] ∧
    e.action = Action.PROXY_DEATH ∧ e.system_health = 0 ∧ deathCount pre = 0) ∧
  deathCount s.cen_events = 0

/-- Concrete run used for claim C2: a malicious arrival at time 1 (recording
`ENUMERATE_PROXY` in the censor's log) followed by a censor block at time 5
(recording `PROXY_BLOCK` in the distributor's log). -/
def c2ops : List Op :=
  [Op.arrival 1 0 true (fun _ => 0) (fun _ => 0), Op.censorBlock 5 (fun _ => 0)]

/-- The final state of the C2 run. -/
def c2final : SimState := (runOps 2 (bootstrap 2) c2ops).getD (bootstrap 2)

/-- Concrete state used for claim C6: two active proxies, two already-blocked
ones, so blocking one more tips `|blocked| > |active|`. -/
def c6state : SimState := { bootstrap 2 with blocked := [2, 3] }

/-- The state after the panic-escalating block of the C6 scenario. -/
def c6after : SimState := (notify_block c6state 3 0).getD c6state

/-- Concrete run used for claim C7: a malicious arrival then a censor block,
leaving proxy 0 blocked and proxy 1 active. -/
def c7ops : List Op :=
  [Op.arrival 1 0 true (fun _ => 0) (fun _ => 0), Op.censorBlock 2 (fun _ => 0)]

/-- The state of the C7 run after blocking. -/
def c7mid : SimState := (runOps 2 (bootstrap 2) c7ops).getD (bootstrap 2)

/-- A further arrival extending the C7 run. -/
def c7ops2 : List Op := [Op.arrival 3 1 false (fun _ => 0) (fun _ => 0)]

/-- The final state of the extended C7 run. -/
def c7final : SimState := (runOps 2 c7mid c7ops2).getD c7mid

/-- Concrete run used for claim C9: a single proxy is enumerated by a
malicious client at time 1 and blocked at time 2, depleting the system. -/
def c9ops : List Op :=
  [Op.arrival 1 0 true (fun _ => 0) (fun _ => 0), Op.censorBlock 2 (fun _ => 0)]

/-- The final state of the C9 run. -/
def c9final : SimState := (runOps 2 (bootstrap 1) c9ops).getD (bootstrap 1)

/-- `assign` changes no state component except `services`. -/
theorem assign_fields (vset : ℕ) (s : SimState) (queueLen rnd : ℕ → ℕ)
    (pos client : ℕ) (s1 : SimState) (pr pos' : ℕ)
    (h : assign vset s queueLen rnd pos client = some (s1, pr, pos')) :
    s1.proxies = s.proxies ∧ s1.blocked = s.blocked ∧ s1.panic_level = s.panic_level ∧
    s1.events = s.events ∧ s1.cen_proxies = s.cen_proxies ∧
    s1.cen_blocked = s.cen_blocked ∧ s1.cen_events = s.cen_events ∧
    s1.terminated = s.terminated := by
  simp only [assign] at h
  split at h
  · exact Option.noConfusion h
  · split at h <;> split at h <;>
      (simp only [Option.some.injEq, Prod.mk.injEq] at h;
       obtain ⟨rfl, -, -⟩ := h;
       exact ⟨rfl, rfl, rfl, rfl, rfl, rfl, rfl, rfl⟩)

/-- `enumerate` touches only the censor's known set and log, appending exactly
one `ENUMERATE_PROXY` or `MISS_ENUMERATE_PROXY` event at the call's time. -/
theorem enumerate_fields (s : SimState) (t : ℚ) (p : ℕ) :
    (enumerate s t p).proxies = s.proxies ∧ (enumerate s t p).blocked = s.blocked ∧
    (enumerate s t p).panic_level = s.panic_level ∧ (enumerate s t p).events = s.events ∧
    (enumerate s t p).services = s.services ∧ (enumerate s t p).terminated = s.terminated ∧
    ∃ e, (enumerate s t p).cen_events = s.cen_events ++ [e] ∧ e.time = t ∧
      (e.action = Action.ENUMERATE_PROXY ∨ e.action = Action.MISS_ENUMERATE_PROXY) := by
  unfold enumerate
  split
  · exact ⟨rfl, rfl, rfl, rfl, rfl, rfl, _, rfl, rfl, Or.inl rfl⟩
  · exact ⟨rfl, rfl, rfl, rfl, rfl, rfl, _, rfl, rfl, Or.inr rfl⟩

/-- Case analysis of `notify_block`: a miss leaves the distributor collections
alone; otherwise the proxy moves from active to blocked, and the call either
ends the run with a `PROXY_DEATH` event or records `PROXY_BLOCK` and bumps the
panic level exactly when the blocked list becomes longer than the active
list.  The censor's components and `services` are never touched. -/
theorem notify_block_cases (s : SimState) (t : ℚ) (p : ℕ) (s' : SimState)
    (h : notify_block s t p = some s') :
    s'.cen_proxies = s.cen_proxies ∧ s'.cen_blocked = s.cen_blocked ∧
    s'.cen_events = s.cen_events ∧ s'.services = s.services ∧
    ((p ∈ s.blocked ∧ s'.proxies = s.proxies ∧ s'.blocked = s.blocked ∧
      s'.panic_level = s.panic_level ∧ s'.terminated = s.terminated ∧
      ∃ e, s'.events = s.events ++ [e] ∧ e.time = t ∧
        e.action = Action.MISS_PROXY_BLOCK) ∨
     (p ∉ s.blocked ∧ p ∈ s.proxies ∧ s'.proxies = s.proxies.erase p ∧
      s'.blocked = s.blocked ++ [p] ∧
      ((s'.proxies = [] ∧ s'.terminated = true ∧ s'.panic_level = s.panic_level ∧
        ∃ e, s'.events = s.events ++ [e] ∧ e.time = t ∧
          e.action = Action.PROXY_DEATH ∧ e.system_health = 0) ∨
       (s'.proxies ≠ [] ∧ s'.terminated = s.terminated ∧
        s'.panic_level = (if s'.blocked.length > s'.proxies.length
                          then s.panic_level + 1 else s.panic_level) ∧
        ∃ e, s'.events = s.events ++ [e] ∧ e.time = t ∧
          e.action = Action.PROXY_BLOCK)))) := by
  simp only [notify_block] at h
  by_cases hb : p ∈ s.blocked
  · rw [if_pos hb] at h
    obtain rfl := Option.some.inj h
    exact ⟨rfl, rfl, rfl, rfl, Or.inl ⟨hb, rfl, rfl, rfl, rfl, _, rfl, rfl, rfl⟩⟩
  · rw [if_neg hb] at h
    by_cases hp : p ∈ s.proxies
    · rw [if_pos hp] at h
      by_cases hz : (s.proxies.erase p).length = 0
      · rw [if_pos hz] at h
        obtain rfl := Option.some.inj h
        exact ⟨rfl, rfl, rfl, rfl, Or.inr ⟨hb, hp, rfl, rfl,
          Or.inl ⟨List.length_eq_zero.mp hz, rfl, rfl, _, rfl, rfl, rfl, rfl⟩⟩⟩
      · rw [if_neg hz] at h
        obtain rfl := Option.some.inj h
        exact ⟨rfl, rfl, rfl, rfl, Or.inr ⟨hb, hp, rfl, rfl,
          Or.inr ⟨fun hnil => hz (by simp [show s.proxies.erase p = [] from hnil]),
            rfl, rfl, _, rfl, rfl, rfl⟩⟩⟩
    · rw [if_neg hp] at h
      exact Option.noConfusion h

/-- Case analysis of one censor blocking iteration: either the known set is
empty and nothing happens, or `notify_block` is called on a state that agrees
with the input on every distributor component and on the censor's log. -/
theorem censor_block_step_cases (s : SimState) (t : ℚ) (queueLen : ℕ → ℕ)
    (s' : SimState) (h : censor_block_step s t queueLen = some s') :
    (s.cen_proxies = [] ∧ s' = s) ∨
    (∃ s1 p, s1.proxies = s.proxies ∧ s1.blocked = s.blocked ∧
      s1.panic_level = s.panic_level ∧ s1.events = s.events ∧
      s1.services = s.services ∧ s1.terminated = s.terminated ∧
      s1.cen_events = s.cen_events ∧ notify_block s1 t p = some s') := by
  simp only [censor_block_step] at h
  by_cases hc : s.cen_proxies = []
  · rw [if_pos hc] at h
    exact Or.inl ⟨hc, (Option.some.inj h).symm⟩
  · rw [if_neg hc] at h
    refine Or.inr ⟨_, _, ?_, ?_, ?_, ?_, ?_, ?_, ?_, h⟩ <;> rfl

/-- One client arrival leaves the distributor's collections, the panic level
and the termination flag unchanged, and appends at most one `EXPOSE_CLIENT`
event to the distributor's log and at most one enumeration event to the
censor's log, all timestamped at the arrival time. -/
theorem client_arrival_fields (vset : ℕ) (s : SimState) (t : ℚ) (client : ℕ)
    (malicious : Bool) (queueLen rnd : ℕ → ℕ) (pos : ℕ) (s' : SimState) (pos' : ℕ)
    (h : client_arrival vset s t client malicious queueLen rnd pos = some (s', pos')) :
    s'.proxies = s.proxies ∧ s'.blocked = s.blocked ∧ s'.panic_level = s.panic_level ∧
    s'.terminated = s.terminated ∧
    (∃ d, s'.events = s.events ++ d ∧ d.length ≤ 1 ∧
      ∀ e ∈ d, e.time = t ∧ e.action = Action.EXPOSE_CLIENT) ∧
    (∃ c, s'.cen_events = s.cen_events ++ c ∧ c.length ≤ 1 ∧
      ∀ e ∈ c, e.time = t ∧
        (e.action = Action.ENUMERATE_PROXY ∨ e.action = Action.MISS_ENUMERATE_PROXY)) := by
  simp only [client_arrival] at h
  split at h
  · exact Option.noConfusion h
  · rename_i s1 proxy pos0 heq
    obtain ⟨hpx, hbl, hpl, hev, hcp, hcb, hce, hterm⟩ :=
      assign_fields vset s queueLen rnd pos client s1 proxy pos0 heq
    cases malicious with
    | true =>
      rw [if_pos rfl] at h
      obtain ⟨hs', -⟩ := Prod.mk.injEq .. ▸ Option.some.inj h
      obtain ⟨he1, he2, he3, he4, he5, he6, e, he7, he8, he9⟩ :=
        enumerate_fields s1 t proxy
      subst hs'
      refine ⟨he1.trans hpx, he2.trans hbl, he3.trans hpl, he6.trans hterm,
        ⟨[], by simp [he4, hev], by simp, by simp⟩,
        ⟨[e], by simp [he7, hce], by simp, by simp [he8, he9]⟩⟩
    | false =>
      rw [if_neg (by simp)] at h
      split at h
      · obtain ⟨hs', -⟩ := Prod.mk.injEq .. ▸ Option.some.inj h
        subst hs'
        refine ⟨hpx, hbl, hpl, hterm,
          ⟨[create_event t Action.EXPOSE_CLIENT s1.proxies s1.blocked proxy 0],
            by simp [hev], by simp, by simp [create_event]⟩,
          ⟨[], by simp [hce], by simp, by simp⟩⟩
      · obtain ⟨hs', -⟩ := Prod.mk.injEq .. ▸ Option.some.inj h
        subst hs'
        exact ⟨hpx, hbl, hpl, hterm,
          ⟨[], by simp [hev], by simp, by simp⟩,
          ⟨[], by simp [hce], by simp, by simp⟩⟩

/-- Death events counted over a concatenation. -/
theorem deathCount_append (l1 l2 : List Event) :
    deathCount (l1 ++ l2) = deathCount l1 + deathCount l2 :=
  List.countP_append _ _ _

/-- A log whose events are all non-death has no death events. -/
theorem deathCount_eq_zero (l : List Event)
    (h : ∀ e ∈ l, e.action ≠ Action.PROXY_DEATH) : deathCount l = 0 :=
  List.countP_eq_zero.mpr (fun e he => by simpa using h e he)

/-- A singleton death event counts once. -/
theorem deathCount_singleton (e : Event) (he : e.action = Action.PROXY_DEATH) :
    deathCount [e] = 1 := by
  simp [deathCount, he]

/-- A log containing a death event has a positive death count. -/
theorem deathCount_pos_of_mem {l : List Event} {e : Event} (hm : e ∈ l)
    (ha : e.action = Action.PROXY_DEATH) : 0 < deathCount l :=
  List.countP_pos.mpr ⟨e, hm, by simp [ha]⟩

/-- One applied operation runs only from a live state; the blocked list only
grows, the active list only shrinks (preserving `DistInv`), the panic level
never decreases and changes only by the block-move increment, and each log
grows by at most one event timestamped at the operation's time. -/
theorem applyOp_step (vset : ℕ) (s : SimState) (op : Op) (s' : SimState)
    (h : applyOp vset s op = some s') :
    s.terminated = false ∧
    (∀ x, x ∈ s.blocked → x ∈ s'.blocked) ∧
    (∀ x, x ∈ s'.proxies → x ∈ s.proxies) ∧
    (DistInv s → DistInv s') ∧
    s.panic_level ≤ s'.panic_level ∧
    (s'.panic_level ≠ s.panic_level →
      s'.panic_level = s.panic_level + 1 ∧ s'.blocked.length = s.blocked.length + 1 ∧
      s.proxies.length = s'.proxies.length + 1 ∧ s'.proxies.length < s'.blocked.length) ∧
    (∃ d, s'.events = s.events ++ d ∧ d.length ≤ 1 ∧ ∀ e ∈ d, e.time = opTime op) ∧
    (∃ c, s'.cen_events = s.cen_events ++ c ∧ c.length ≤ 1 ∧ ∀ e ∈ c, e.time = opTime op) := by
  cases op with
  | arrival t client malicious queueLen rnd =>
    simp only [applyOp] at h
    by_cases ht : s.terminated = true
    · rw [if_pos ht] at h; exact Option.noConfusion h
    · rw [if_neg ht] at h
      have hfalse : s.terminated = false := by simpa using ht
      obtain ⟨⟨s0, pos'⟩, heq, hfst⟩ := Option.map_eq_some'.mp h
      obtain rfl : s0 = s' := hfst
      obtain ⟨hpx, hbl, hpl, hterm, ⟨d, hd, hdl, hdt⟩, ⟨c, hcev, hcl, hct⟩⟩ :=
        client_arrival_fields vset s t client malicious queueLen rnd 0 s0 pos' heq
      refine ⟨hfalse, ?_, ?_, ?_, ?_, ?_, ?_, ?_⟩
      · intro x hx; rw [hbl]; exact hx
      · intro x hx; rw [hpx] at hx; exact hx
      · intro hinv; unfold DistInv; rw [hpx, hbl]; exact hinv
      · rw [hpl]
      · intro hne; exact absurd hpl hne
      · exact ⟨d, hd, hdl, fun e he => (hdt e he).1⟩
      · exact ⟨c, hcev, hcl, fun e he => (hct e he).1⟩
  | censorBlock t queueLen =>
    simp only [applyOp] at h
    by_cases ht : s.terminated = true
    · rw [if_pos ht] at h; exact Option.noConfusion h
    · rw [if_neg ht] at h
      have hfalse : s.terminated = false := by simpa using ht
      rcases censor_block_step_cases s t queueLen s' h with ⟨-, rfl⟩ |
        ⟨s1, p, h1, h2, h3, h4, h5, h6, h7, hnb⟩
      · exact ⟨hfalse, fun x hx => hx, fun x hx => hx, id, le_refl _,
          fun hne => absurd rfl hne,
          ⟨[], by simp, by simp, by simp⟩, ⟨[], by simp, by simp, by simp⟩⟩
      · obtain ⟨-, -, hce, -, hcases⟩ := notify_block_cases s1 t p s' hnb
        rcases hcases with ⟨hb, hpx, hbl, hpl, hterm, e, hev, het, -⟩ |
          ⟨hb, hp, hpx, hbl, hrest⟩
        · refine ⟨hfalse, ?_, ?_, ?_, ?_, ?_, ?_, ?_⟩
          · intro x hx; rw [hbl, h2]; exact hx
          · intro x hx; rw [hpx, h1] at hx; exact hx
          · intro hinv; unfold DistInv; rw [hpx, hbl, h1, h2]; exact hinv
          · rw [hpl, h3]
          · intro hne; exact absurd (hpl.trans h3) hne
          · exact ⟨[e], by rw [hev, h4], by simp, by simp [het, opTime]⟩
          · exact ⟨[], by simp [hce, h7], by simp, by simp⟩
        · have hp' : p ∈ s.proxies := h1 ▸ hp
          have hb' : p ∉ s.blocked := h2 ▸ hb
          have hpx' : s'.proxies = s.proxies.erase p := by rw [hpx, h1]
          have hbl' : s'.blocked = s.blocked ++ [p] := by rw [hbl, h2]
          have hlen : (s.proxies.erase p).length = s.proxies.length - 1 :=
            List.length_erase_of_mem hp'
          have hppos : 0 < s.proxies.length := List.length_pos_of_mem hp'
          refine ⟨hfalse, ?_, ?_, ?_, ?_, ?_, ?_, ?_⟩
          · intro x hx; rw [hbl']; exact List.mem_append_left _ hx
          · intro x hx; rw [hpx'] at hx; exact List.mem_of_mem_erase hx
          · rintro ⟨hnd, hdj⟩
            refine ⟨?_, ?_⟩
            · rw [hpx']; exact hnd.erase p
            · intro x hx
              rw [hpx'] at hx
              obtain ⟨hxne, hxmem⟩ := (List.Nodup.mem_erase_iff hnd).mp hx
              rw [hbl']
              simp only [List.mem_append, List.mem_singleton]
              rintro (hxb | rfl)
              · exact hdj x hxmem hxb
              · exact hxne rfl
          · rcases hrest with ⟨-, -, hpl, -⟩ | ⟨-, -, hpl, -⟩
            · rw [hpl, h3]
            · rw [hpl, h3]; split <;> omega
          · rcases hrest with ⟨-, -, hpl, -⟩ | ⟨-, -, hpl, -⟩
            · intro hne; exact absurd (hpl.trans h3) hne
            · intro hne
              rw [hpl, h3] at hne ⊢
              split at hne
              · rename_i hcond
                refine ⟨by rw [if_pos hcond], ?_, ?_, ?_⟩
                · rw [hbl']; simp
                · rw [hpx', hlen]; omega
                · exact hcond
              · exact absurd rfl hne
          · rcases hrest with ⟨-, -, -, e, hev, het, -⟩ | ⟨-, -, -, e, hev, het, -⟩ <;>
              exact ⟨[e], by rw [hev, h4], by simp, by simp [het, opTime]⟩
          · exact ⟨[], by simp [hce, h7], by simp, by simp⟩

/-- One applied operation preserves the death invariant. -/
theorem applyOp_death (vset : ℕ) (s : SimState) (op : Op) (s' : SimState)
    (h : applyOp vset s op = some s') (hinv : DeathInv s) : DeathInv s' := by
  cases op with
  | arrival t client malicious queueLen rnd =>
    simp only [applyOp] at h
    by_cases ht : s.terminated = true
    · rw [if_pos ht] at h; exact Option.noConfusion h
    · rw [if_neg ht] at h
      have hfalse : s.terminated = false := by simpa using ht
      obtain ⟨⟨s0, pos'⟩, heq, hfst⟩ := Option.map_eq_some'.mp h
      obtain rfl : s0 = s' := hfst
      obtain ⟨hpx, -, -, hterm, ⟨d, hd, -, hdt⟩, ⟨c, hcev, -, hct⟩⟩ :=
        client_arrival_fields vset s t client malicious queueLen rnd 0 s0 pos' heq
      obtain ⟨hlive, -, hcen⟩ := hinv
      obtain ⟨hdc, hpne⟩ := hlive hfalse
      refine ⟨fun _ => ⟨?_, ?_⟩, fun htrue => ?_, ?_⟩
      · rw [hd, deathCount_append, hdc,
          deathCount_eq_zero d (fun e he => by simp [(hdt e he).2])]
      · rw [hpx]; exact hpne
      · rw [hterm, hfalse] at htrue; exact Bool.noConfusion htrue
      · rw [hcev, deathCount_append, hcen,
          deathCount_eq_zero c (fun e he => by rcases (hct e he).2 with h' | h' <;> simp [h'])]
  | censorBlock t queueLen =>
    simp only [applyOp] at h
    by_cases ht : s.terminated = true
    · rw [if_pos ht] at h; exact Option.noConfusion h
    · rw [if_neg ht] at h
      have hfalse : s.terminated = false := by simpa using ht
      rcases censor_block_step_cases s t queueLen s' h with ⟨-, rfl⟩ |
        ⟨s1, p, h1, h2, h3, h4, h5, h6, h7, hnb⟩
      · exact hinv
      · obtain ⟨-, -, hce, -, hcases⟩ := notify_block_cases s1 t p s' hnb
        obtain ⟨hlive, -, hcen⟩ := hinv
        obtain ⟨hdc, hpne⟩ := hlive hfalse
        have hcen' : deathCount s'.cen_events = 0 := by rw [hce, h7]; exact hcen
        rcases hcases with ⟨-, hpx, -, -, hterm, e, hev, -, hact⟩ |
          ⟨-, hp, hpx, -, hrest⟩
        · refine ⟨fun _ => ⟨?_, ?_⟩, fun htrue => ?_, hcen'⟩
          · rw [hev, h4, deathCount_append, hdc,
              deathCount_eq_zero [e] (fun e' he' => by
                obtain rfl := List.mem_singleton.mp he'; simp [hact])]
          · rw [hpx, h1]; exact hpne
          · rw [hterm, h6, hfalse] at htrue; exact Bool.noConfusion htrue
        · rcases hrest with ⟨hpnil, hterm, -, e, hev, -, hact, hhealth⟩ |
            ⟨hpnil, hterm, -, e, hev, -, hact⟩
          · refine ⟨fun hfalse' => ?_, fun _ => ?_, hcen'⟩
            · rw [hterm] at hfalse'; exact Bool.noConfusion hfalse'
            · exact ⟨s.events, e, by rw [hev, h4], hact, hhealth, hdc⟩
          · refine ⟨fun _ => ⟨?_, hpnil⟩, fun htrue => ?_, hcen'⟩
            · rw [hev, h4, deathCount_append, hdc,
                deathCount_eq_zero [e] (fun e' he' => by
                  obtain rfl := List.mem_singleton.mp he'; simp [hact])]
            · rw [hterm, h6, hfalse] at htrue; exact Bool.noConfusion htrue

/-- Trace-level soundness: along any successful operation sequence the blocked
list only grows, the panic level never decreases, and both invariants are
preserved. -/
theorem runOps_sound (vset : ℕ) : ∀ (ops : List Op) (s s' : SimState),
    runOps vset s ops = some s' →
    (∀ x, x ∈ s.blocked → x ∈ s'.blocked) ∧ s.panic_level ≤ s'.panic_level ∧
    (DistInv s → DistInv s') ∧ (DeathInv s → DeathInv s') := by
  intro ops
  induction ops with
  | nil =>
    intro s s' h
    obtain rfl := Option.some.inj h
    exact ⟨fun x hx => hx, le_refl _, id, id⟩
  | cons op rest ih =>
    intro s s' h
    simp only [runOps] at h
    split at h
    · exact Option.noConfusion h
    · rename_i s1 heq
      obtain ⟨-, hbm, -, hdi, hpm, -, -, -⟩ := applyOp_step vset s op s1 heq
      have hdd := applyOp_death vset s op s1 heq
      obtain ⟨ibm, ipm, idi, idd⟩ := ih s1 s' h
      exact ⟨fun x hx => ibm x (hbm x hx), le_trans hpm ipm,
        fun hv => idi (hdi hv), fun hv => idd (hdd hv)⟩

/-- Appending at most one event with a late timestamp keeps a log
chronological. -/
theorem chronological_append_le (l d : List Event) (t : ℚ)
    (hc : Chronological l) (hb : ∀ e ∈ l, e.time ≤ t)
    (hdl : d.length ≤ 1) (hdt : ∀ e ∈ d, e.time = t) :
    Chronological (l ++ d) := by
  rcases d with - | ⟨e, d'⟩
  · simpa using hc
  · rcases d' with - | ⟨e2, d''⟩
    · refine List.pairwise_append.mpr ⟨hc, by simp [Chronological], ?_⟩
      intro a ha b hb'
      obtain rfl := List.mem_singleton.mp hb'
      rw [hdt b (List.mem_singleton.mpr rfl)]
      exact hb a ha
    · simp at hdl

/-- If the operations run in non-decreasing time order, each of the two logs
separately stays in non-decreasing time order. -/
theorem runOps_chronological (vset : ℕ) : ∀ (ops : List Op) (s s' : SimState),
    runOps vset s ops = some s' →
    (ops.map opTime).Pairwise (· ≤ ·) →
    Chronological s.events → Chronological s.cen_events →
    (∀ t, t ∈ ops.map opTime →
      (∀ e ∈ s.events, e.time ≤ t) ∧ (∀ e ∈ s.cen_events, e.time ≤ t)) →
    Chronological s'.events ∧ Chronological s'.cen_events := by
  intro ops
  induction ops with
  | nil =>
    intro s s' h _ hc1 hc2 _
    obtain rfl := Option.some.inj h
    exact ⟨hc1, hc2⟩
  | cons op rest ih =>
    intro s s' h hmono hc1 hc2 hbound
    simp only [runOps] at h
    split at h
    · exact Option.noConfusion h
    · rename_i s1 heq
      obtain ⟨-, -, -, -, -, -, ⟨d, hd, hdl, hdt⟩, ⟨c, hcearr, hcl, hct⟩⟩ :=
        applyOp_step vset s op s1 heq
      simp only [List.map_cons, List.pairwise_cons] at hmono
      obtain ⟨hople, hmono'⟩ := hmono
      have hb0 := hbound (opTime op) (by simp)
      have hc1' : Chronological s1.events := by
        rw [hd]; exact chronological_append_le _ _ _ hc1 hb0.1 hdl hdt
      have hc2' : Chronological s1.cen_events := by
        rw [hcearr]; exact chronological_append_le _ _ _ hc2 hb0.2 hcl hct
      refine ih s1 s' h hmono' hc1' hc2' ?_
      intro t ht
      have hople' : opTime op ≤ t := hople t ht
      have hbt := hbound t (List.mem_cons_of_mem _ ht)
      constructor
      · intro e he
        rw [hd] at he
        rcases List.mem_append.mp he with h1' | h1'
        · exact hbt.1 e h1'
        · rw [hdt e h1']; exact hople'
      · intro e he
        rw [hcearr] at he
        rcases List.mem_append.mp he with h1' | h1'
        · exact hbt.2 e h1'
        · rw [hct e h1']; exact hople'

/-- C1: the claim says a panic-mode assignment with `victim_size > 0` selects
by a uniform index in `[0, victim_size)` **into the freshly sorted-descending
list**, so with 4 active proxies and `VICTIM_SET = 2` the choice is always one
of the top 2 by queue length.  The code computes `sorted_proxies` and then
indexes the unsorted `self.proxies` instead: with active list `[0, 1, 2, 3]`,
queue lengths `0, 5, 3, 1`, `panic_level = 1` and victim draw `0`, it assigns
proxy `0` (queue length 0), which is not among the top 2 (`[1, 2]`). -/
theorem C1_panic_indexes_unsorted_list :
    assign 2 { bootstrap 4 with panic_level := 1 }
        (fun n => [0, 5, 3, 1].getD n 0) (fun _ => 0) 0 0 =
      some ({ bootstrap 4 with panic_level := 1, services := [(0, 0)] }, 0, 3) ∧
    (bootstrap 4).proxies.length / 2 = 2 ∧
    (sortByQueueDesc (fun n => [0, 5, 3, 1].getD n 0) (bootstrap 4).proxies).take 2 = [1, 2] ∧
    (0 : ℕ) ∉ [1, 2] := by
  decide

/-- C3: the claim says a panic-mode assignment with `victim_size = 0` goes to
the single most-loaded active proxy.  The code returns `self.proxies[0]`, the
head of the unsorted active list (the computed `sorted_proxies` is unused):
with active list `[0, 1]`, queue lengths `0, 5` and `VICTIM_SET = 3` (so
`victim_size = 0`), it assigns proxy `0` although the most-loaded active proxy
is `1`. -/
theorem C3_victim_zero_returns_unsorted_head :
    assign 3 { bootstrap 2 with panic_level := 1 }
        (fun n => [0, 5].getD n 0) (fun _ => 0) 0 0 =
      some ({ bootstrap 2 with panic_level := 1 }, 0, 2) ∧
    (bootstrap 2).proxies.length / 3 = 0 ∧
    (sortByQueueDesc (fun n => [0, 5].getD n 0) (bootstrap 2).proxies).headD 0 = 1 ∧
    (fun n => [0, 5].getD n 0 : ℕ → ℕ) 0 < (fun n => [0, 5].getD n 0 : ℕ → ℕ) 1 := by
  decide

/-- C4: the claim says every branch of `assign` starts the chosen proxy's
service process.  In the panic branch with `victim_size = 0` the code returns
`self.proxies[0]` without any `env.process(...)` call: at a concrete such
input the returned state is unchanged — in particular no service process is
recorded for the assigned client `7`. -/
theorem C4_victim_zero_starts_no_service :
    assign 3 { bootstrap 2 with panic_level := 1 }
        (fun n => [0, 5].getD n 0) (fun _ => 0) 0 7 =
      some ({ bootstrap 2 with panic_level := 1 }, 0, 2) ∧
    ({ bootstrap 2 with panic_level := 1 } : SimState).services = [] := by
  decide

/-- C5: in default (non-panic) mode `assign` draws two indices into the active
list (with replacement) and assigns the client to the drawn proxy with the
strictly shorter queue, the first-drawn proxy on ties; the chosen proxy's
service process is started and the random cursor advances by the two draws. -/
theorem C5_default_power_of_two_choices (vset : ℕ) (s : SimState)
    (queueLen rnd : ℕ → ℕ) (pos client : ℕ)
    (hpanic : s.panic_level = 0)
    (h1 : rnd pos < s.proxies.length) (h2 : rnd (pos + 1) < s.proxies.length) :
    ∃ chosen,
      assign vset s queueLen rnd pos client =
        some ({ s with services := s.services ++ [(chosen, client)] }, chosen, pos + 2) ∧
      queueLen chosen ≤ queueLen (s.proxies.getD (rnd pos) 0) ∧
      queueLen chosen ≤ queueLen (s.proxies.getD (rnd (pos + 1)) 0) ∧
      (queueLen (s.proxies.getD (rnd pos) 0) < queueLen (s.proxies.getD (rnd (pos + 1)) 0) →
        chosen = s.proxies.getD (rnd pos) 0) ∧
      (queueLen (s.proxies.getD (rnd (pos + 1)) 0) < queueLen (s.proxies.getD (rnd pos) 0) →
        chosen = s.proxies.getD (rnd (pos + 1)) 0) ∧
      (queueLen (s.proxies.getD (rnd pos) 0) = queueLen (s.proxies.getD (rnd (pos + 1)) 0) →
        chosen = s.proxies.getD (rnd pos) 0) := by
  have hlen : ¬ s.proxies.length = 0 := by omega
  have hnp : ¬ s.panic_level > 0 := by omega
  have key : assign vset s queueLen rnd pos client =
      if queueLen (s.proxies.getD (rnd pos) 0) > queueLen (s.proxies.getD (rnd (pos + 1)) 0) then
        some ({ s with
                services := s.services ++ [(s.proxies.getD (rnd (pos + 1)) 0, client)] },
              s.proxies.getD (rnd (pos + 1)) 0, pos + 2)
      else
        some ({ s with
                services := s.services ++ [(s.proxies.getD (rnd pos) 0, client)] },
              s.proxies.getD (rnd pos) 0, pos + 2) := by
    simp only [assign]
    rw [if_neg hlen, if_neg hnp]
  by_cases h : queueLen (s.proxies.getD (rnd pos) 0) > queueLen (s.proxies.getD (rnd (pos + 1)) 0)
  · rw [if_pos h] at key
    exact ⟨_, key, by omega, by omega,
      fun hx => absurd hx (by omega), fun hx => rfl, fun hx => absurd h (by omega)⟩
  · rw [if_neg h] at key
    exact ⟨_, key, by omega, by omega,
      fun hx => rfl, fun hx => absurd hx (by omega), fun hx => rfl⟩

/-- C5 witness: queue lengths 3 and 5, draws `0` then `1`: the length-3 proxy
(index 0) is assigned and serviced. -/
theorem C5_default_witness :
    ∃ chosen,
      assign 2 (bootstrap 2) (fun n => [3, 5].getD n 0) (fun i => if i = 0 then 0 else 1) 0 9 =
        some ({ bootstrap 2 with
                services := (bootstrap 2).services ++ [(chosen, 9)] }, chosen, 0 + 2) ∧
      chosen = 0 := by
  obtain ⟨c, hc, -, -, hlt, -, -⟩ :=
    C5_default_power_of_two_choices 2 (bootstrap 2) (fun n => [3, 5].getD n 0)
      (fun i => if i = 0 then 0 else 1) 0 9 rfl (by decide) (by decide)
  exact ⟨c, hc, hlt (by decide)⟩

/-- C10: in panic mode the two default-mode draws are still taken before the
panic branch (the cursor advances past them), a third draw is taken exactly
when `victim_size > 0`, and the chosen proxy never depends on the first two
draws: any stream agreeing at position `pos + 2` yields the same result. -/
theorem C10_panic_draw_consumption (vset : ℕ) (s : SimState)
    (queueLen rnd rnd2 : ℕ → ℕ) (pos client : ℕ)
    (hpanic : 0 < s.panic_level) (hne : ¬ s.proxies.length = 0)
    (hagree : rnd (pos + 2) = rnd2 (pos + 2)) :
    (0 < s.proxies.length / vset →
      assign vset s queueLen rnd pos client =
        some ({ s with
                services := s.services ++ [(s.proxies.getD (rnd (pos + 2)) 0, client)] },
              s.proxies.getD (rnd (pos + 2)) 0, pos + 3)) ∧
    (s.proxies.length / vset = 0 →
      assign vset s queueLen rnd pos client = some (s, s.proxies.getD 0 0, pos + 2)) ∧
    assign vset s queueLen rnd2 pos client = assign vset s queueLen rnd pos client := by
  by_cases hv : 0 < s.proxies.length / vset
  · refine ⟨fun _ => ?_, fun hz => by omega, ?_⟩ <;>
      simp [assign, hne, hpanic, hv, hagree]
  · refine ⟨fun hp => absurd hp hv, fun _ => ?_, ?_⟩ <;>
      simp [assign, hne, hpanic, hv, hagree]

/-- C10 witness: 4 active proxies, `VICTIM_SET = 2`, `panic_level = 1`; the
call consumes three draws and two streams differing in their first two draws
but agreeing on the third produce the same assignment. -/
theorem C10_panic_witness :
    assign 2 { bootstrap 4 with panic_level := 1 } (fun _ => 0)
        (fun i => if i = 2 then 1 else 0) 0 0 =
      some ({ bootstrap 4 with panic_level := 1, services := [(1, 0)] }, 1, 0 + 3) ∧
    assign 2 { bootstrap 4 with panic_level := 1 } (fun _ => 0)
        (fun i => if i = 2 then 1 else 3) 0 0 =
      assign 2 { bootstrap 4 with panic_level := 1 } (fun _ => 0)
        (fun i => if i = 2 then 1 else 0) 0 0 := by
  obtain ⟨h3, -, hsame⟩ :=
    C10_panic_draw_consumption 2 { bootstrap 4 with panic_level := 1 } (fun _ => 0)
      (fun i => if i = 2 then 1 else 0) (fun i => if i = 2 then 1 else 3) 0 0
      (by decide) (by decide) (by decide)
  refine ⟨?_, hsame⟩
  simpa using h3 (by decide)

/-- C8: a `notify_block` on an already-blocked proxy records exactly one
`MISS_PROXY_BLOCK` event with
`system_health = (1 - |blocked| / (|active| + |blocked|)) * 100` from the
current counts, leaves every other state component (in particular the active
and blocked sets and the termination flag) unchanged; consequently two
successive `notify_block` calls on a proxy that is active and not yet blocked
record one `PROXY_BLOCK` or `PROXY_DEATH` followed by one `MISS_PROXY_BLOCK`. -/
theorem C8_redundant_block_is_miss (s : SimState) (t1 t2 : ℚ) (p : ℕ) :
    (p ∈ s.blocked →
      notify_block s t1 p =
        some { s with
               events := s.events ++
                 [create_event t1 Action.MISS_PROXY_BLOCK s.proxies s.blocked p
                   ((1 - (s.blocked.length : ℚ) /
                     ((s.proxies.length : ℚ) + (s.blocked.length : ℚ))) * 100)] }) ∧
    (p ∉ s.blocked → p ∈ s.proxies →
      ∃ s1 e1,
        notify_block s t1 p = some s1 ∧
        s1.events = s.events ++ [e1] ∧
        (e1.action = Action.PROXY_BLOCK ∨ e1.action = Action.PROXY_DEATH) ∧
        p ∈ s1.blocked ∧
        notify_block s1 t2 p =
          some { s1 with
                 events := s1.events ++
                   [create_event t2 Action.MISS_PROXY_BLOCK s1.proxies s1.blocked p
                     ((1 - (s1.blocked.length : ℚ) /
                       ((s1.proxies.length : ℚ) + (s1.blocked.length : ℚ))) * 100)] }) := by
  have miss : ∀ (s' : SimState) (t : ℚ), p ∈ s'.blocked →
      notify_block s' t p =
        some { s' with
               events := s'.events ++
                 [create_event t Action.MISS_PROXY_BLOCK s'.proxies s'.blocked p
                   ((1 - (s'.blocked.length : ℚ) /
                     ((s'.proxies.length : ℚ) + (s'.blocked.length : ℚ))) * 100)] } := by
    intro s' t hb
    simp only [notify_block]
    rw [if_pos hb]
  constructor
  · intro hb
    exact miss s t1 hb
  · intro hnb hp
    have hmem : p ∈ s.blocked ++ [p] := List.mem_append_right _ (List.mem_singleton.mpr rfl)
    by_cases hz : (s.proxies.erase p).length = 0
    · have h1 : notify_block s t1 p =
          some { s with
                 proxies := s.proxies.erase p,
                 blocked := s.blocked ++ [p],
                 events := s.events ++
                   [create_event t1 Action.PROXY_DEATH (s.proxies.erase p) (s.blocked ++ [p]) p 0],
                 terminated := true } := by
        simp only [notify_block]
        rw [if_neg hnb, if_pos hp, if_pos hz]
      exact ⟨_, _, h1, rfl, Or.inr rfl, hmem, miss _ t2 hmem⟩
    · have h1 : notify_block s t1 p =
          some { s with
                 proxies := s.proxies.erase p,
                 blocked := s.blocked ++ [p],
                 panic_level := if (s.blocked ++ [p]).length > (s.proxies.erase p).length
                                then s.panic_level + 1 else s.panic_level,
                 events := s.events ++
                   [create_event t1 Action.PROXY_BLOCK (s.proxies.erase p) (s.blocked ++ [p]) p
                     ((1 - ((s.blocked ++ [p]).length : ℚ) /
                       (((s.proxies.erase p).length : ℚ) + ((s.blocked ++ [p]).length : ℚ))) * 100)] } := by
        simp only [notify_block]
        rw [if_neg hnb, if_pos hp, if_neg hz]
      exact ⟨_, _, h1, rfl, Or.inl rfl, hmem, miss _ t2 hmem⟩

/-- C8 witness: 3 proxies, first block of proxy `0` records `PROXY_BLOCK`,
the repeated call records `MISS_PROXY_BLOCK` and changes no set. -/
theorem C8_redundant_block_witness :
    ∃ s1 e1,
      notify_block (bootstrap 3) 4 0 = some s1 ∧
      s1.events = (bootstrap 3).events ++ [e1] ∧
      (e1.action = Action.PROXY_BLOCK ∨ e1.action = Action.PROXY_DEATH) ∧
      0 ∈ s1.blocked ∧
      notify_block s1 6 0 =
        some { s1 with
               events := s1.events ++
                 [create_event 6 Action.MISS_PROXY_BLOCK s1.proxies s1.blocked 0
                   ((1 - (s1.blocked.length : ℚ) /
                     ((s1.proxies.length : ℚ) + (s1.blocked.length : ℚ))) * 100)] } := by
  exact (C8_redundant_block_is_miss (bootstrap 3) 4 6 0).2 (by decide) (by decide)

/-- C6: along any operation sequence the panic level never decreases; it
changes at a `notify_block` call only by moving a proxy from active to blocked
with `|blocked| > |active|` strictly after the move, incrementing by exactly
one; and any state transition that changes the panic level is such a
block-move. -/
theorem C6_panic_level_monotone (vset : ℕ) :
    (∀ (s : SimState) (ops : List Op) (s' : SimState),
      runOps vset s ops = some s' → s.panic_level ≤ s'.panic_level) ∧
    (∀ (s : SimState) (t : ℚ) (p : ℕ) (s' : SimState),
      notify_block s t p = some s' → s'.panic_level ≠ s.panic_level →
      s'.panic_level = s.panic_level + 1 ∧ p ∈ s.proxies ∧ p ∉ s.blocked ∧
      s'.blocked = s.blocked ++ [p] ∧ s'.proxies = s.proxies.erase p ∧
      s'.proxies.length < s'.blocked.length) ∧
    (∀ (s : SimState) (op : Op) (s' : SimState),
      applyOp vset s op = some s' → s'.panic_level ≠ s.panic_level →
      s'.panic_level = s.panic_level + 1 ∧ s'.blocked.length = s.blocked.length + 1 ∧
      s.proxies.length = s'.proxies.length + 1 ∧ s'.proxies.length < s'.blocked.length) := by
  refine ⟨fun s ops s' h => (runOps_sound vset ops s s' h).2.1, ?_, ?_⟩
  · intro s t p s' h hne
    obtain ⟨-, -, -, -, hcases⟩ := notify_block_cases s t p s' h
    rcases hcases with ⟨-, -, -, hpl, -, -⟩ |
      ⟨hb, hp, hpx, hbl, ⟨-, -, hpl, -⟩ | ⟨-, -, hpl, -⟩⟩
    · exact absurd hpl hne
    · exact absurd hpl hne
    · by_cases hcond : s'.blocked.length > s'.proxies.length
      · rw [if_pos hcond] at hpl
        exact ⟨hpl, hp, hb, hbl, hpx, hcond⟩
      · rw [if_neg hcond] at hpl
        exact absurd hpl hne
  · intro s op s' h hne
    exact (applyOp_step vset s op s' h).2.2.2.2.2.1 hne

/-- C6 witness: with active `[0, 1]` and blocked `[2, 3]`, blocking proxy 0
leaves one active against three blocked and raises the panic level from 0 to
1. -/
theorem C6_panic_level_witness :
    c6after.panic_level = c6state.panic_level + 1 ∧ 0 ∈ c6state.proxies ∧
    0 ∉ c6state.blocked ∧ c6after.blocked = c6state.blocked ++ [0] ∧
    c6after.proxies = c6state.proxies.erase 0 ∧
    c6after.proxies.length < c6after.blocked.length := by
  exact (C6_panic_level_monotone 2).2.1 c6state 3 0 c6after rfl (by decide)

/-- C7: after any operation sequence from bootstrap the active and blocked
sets are disjoint, and a proxy blocked at some point of the run stays blocked
and never re-appears active later in the run. -/
theorem C7_active_blocked_disjoint (vset num_proxies : ℕ) (ops1 ops2 : List Op)
    (s1 s2 : SimState)
    (h1 : runOps vset (bootstrap num_proxies) ops1 = some s1)
    (h2 : runOps vset s1 ops2 = some s2) :
    (∀ p, p ∈ s1.proxies → p ∉ s1.blocked) ∧
    (∀ p, p ∈ s1.blocked → p ∈ s2.blocked ∧ p ∉ s2.proxies) := by
  have hinv0 : DistInv (bootstrap num_proxies) :=
    ⟨List.nodup_range _, fun x _ => List.not_mem_nil x⟩
  have hi1 := runOps_sound vset ops1 _ s1 h1
  have hi2 := runOps_sound vset ops2 s1 s2 h2
  have hd1 : DistInv s1 := hi1.2.2.1 hinv0
  have hd2 : DistInv s2 := hi2.2.2.1 hd1
  refine ⟨fun p hp => hd1.2 p hp, fun p hp => ⟨hi2.1 p hp, fun hmem => ?_⟩⟩
  exact hd2.2 p hmem (hi2.1 p hp)

/-- C7 witness: after a malicious arrival and a censor block, proxy 0 is
blocked; it stays blocked and inactive across a further arrival. -/
theorem C7_active_blocked_witness :
    0 ∈ c7mid.blocked ∧
    (∀ p, p ∈ c7mid.proxies → p ∉ c7mid.blocked) ∧
    (∀ p, p ∈ c7mid.blocked → p ∈ c7final.blocked ∧ p ∉ c7final.proxies) := by
  obtain ⟨ha, hb⟩ := C7_active_blocked_disjoint 2 2 c7ops c7ops2 c7mid c7final rfl rfl
  exact ⟨by decide, ha, hb⟩

/-- C9: a run from a non-empty bootstrap holds at most one `PROXY_DEATH`
(none in the censor's log); reaching depletion forces termination with exactly
one `PROXY_DEATH`; any death event is the last event of the distributor's log
and carries `system_health = 0`; and a terminated state accepts no further
operation, so nothing is recorded after the death event. -/
theorem C9_unique_death (vset num_proxies : ℕ) (ops : List Op) (s' : SimState)
    (hn : 1 ≤ num_proxies)
    (h : runOps vset (bootstrap num_proxies) ops = some s') :
    deathCount s'.events ≤ 1 ∧
    deathCount s'.cen_events = 0 ∧
    (s'.proxies = [] → s'.terminated = true ∧ deathCount s'.events = 1) ∧
    (∀ e ∈ s'.events, e.action = Action.PROXY_DEATH →
      s'.events.getLast? = some e ∧ e.system_health = 0) ∧
    (s'.terminated = true → ∀ op, applyOp vset s' op = none) := by
  have hinv0 : DeathInv (bootstrap num_proxies) := by
    refine ⟨fun _ => ⟨rfl, fun hr => ?_⟩, fun ht => Bool.noConfusion ht, rfl⟩
    have := List.range_eq_nil.mp hr
    omega
  have hinv : DeathInv s' := (runOps_sound vset ops _ s' h).2.2.2 hinv0
  obtain ⟨hlive, hdead, hcen⟩ := hinv
  have hcount : s'.terminated = true → deathCount s'.events = 1 := by
    intro htm
    obtain ⟨pre, e, hev, hea, -, hpre⟩ := hdead htm
    rw [hev, deathCount_append, hpre, deathCount_singleton e hea]
  refine ⟨?_, hcen, ?_, ?_, ?_⟩
  · cases htm : s'.terminated with
    | false => rw [(hlive htm).1]; omega
    | true => rw [hcount htm]
  · intro hpx
    cases htm : s'.terminated with
    | false => exact absurd hpx (hlive htm).2
    | true => exact ⟨rfl, hcount htm⟩
  · intro e hm hea
    cases htm : s'.terminated with
    | false =>
      have hzero := (hlive htm).1
      have hpos := deathCount_pos_of_mem hm hea
      omega
    | true =>
      obtain ⟨pre, e0, hev, hea0, hh0, hpre⟩ := hdead htm
      rw [hev] at hm
      rcases List.mem_append.mp hm with hpe | he0
      · have hpos := deathCount_pos_of_mem hpe hea
        omega
      · obtain rfl := List.mem_singleton.mp he0
        exact ⟨by rw [hev]; exact List.getLast?_concat _, hh0⟩
  · intro htm op
    cases op <;> simp [applyOp, htm]

/-- C9 witness: with a single proxy, a malicious arrival followed by the first
censor block depletes the system; the distributor's log is exactly one
`PROXY_DEATH` (not a `PROXY_BLOCK`) and the state is terminated. -/
theorem C9_unique_death_witness :
    runOps 2 (bootstrap 1) c9ops = some c9final ∧
    c9final.proxies = [] ∧
    c9final.events.map Event.action = [Action.PROXY_DEATH] ∧
    deathCount c9final.events ≤ 1 ∧ deathCount c9final.cen_events = 0 ∧
    c9final.terminated = true ∧ deathCount c9final.events = 1 := by
  obtain ⟨hc1, hc2, hc3, -, -⟩ := C9_unique_death 2 1 c9ops c9final (by decide) rfl
  obtain ⟨ht, hone⟩ := hc3 (by decide)
  exact ⟨rfl, by decide, by decide, hc1, hc2, ht, hone⟩

/-- C2 counterexample: the distributor and censor each append to their own
log, and `run` returns `distributor.events + censor.events`.  In the concrete
run `c2ops` (enumeration at time 1, block at time 5, operations in time
order), the returned sequence lists the time-5 `PROXY_BLOCK` before the time-1
`ENUMERATE_PROXY`; it is not ordered by non-decreasing event time. -/
theorem C2_counterexample :
    runOps 2 (bootstrap 2) c2ops = some c2final ∧
    (c2ops.map opTime).Pairwise (· ≤ ·) ∧
    ¬ Chronological (run_result c2final.events c2final.cen_events) :=
  ⟨rfl, by decide, by decide⟩

/-- C2 (amended): the Distributor and the Censor each maintain their own
append-only log — every operation appends events stamped with its own time —
`run` returns the concatenation `distributor.events ++ censor.events`, and
each of the two logs separately is ordered by non-decreasing time whenever the
operations run in non-decreasing time order. -/
theorem C2_separate_logs (vset : ℕ) :
    (∀ (s : SimState) (op : Op) (s' : SimState), applyOp vset s op = some s' →
      (∃ d, s'.events = s.events ++ d ∧ ∀ e ∈ d, e.time = opTime op) ∧
      (∃ c, s'.cen_events = s.cen_events ++ c ∧ ∀ e ∈ c, e.time = opTime op)) ∧
    (∀ (num_proxies : ℕ) (ops : List Op) (s' : SimState),
      runOps vset (bootstrap num_proxies) ops = some s' →
      (ops.map opTime).Pairwise (· ≤ ·) →
      Chronological s'.events ∧ Chronological s'.cen_events ∧
      run_result s'.events s'.cen_events = s'.events ++ s'.cen_events) := by
  constructor
  · intro s op s' h
    obtain ⟨-, -, -, -, -, -, ⟨d, hd, -, hdt⟩, ⟨c, hc, -, hct⟩⟩ :=
      applyOp_step vset s op s' h
    exact ⟨⟨d, hd, hdt⟩, ⟨c, hc, hct⟩⟩
  · intro n ops s' h hmono
    obtain ⟨hch1, hch2⟩ := runOps_chronological vset ops (bootstrap n) s' h hmono
      List.Pairwise.nil List.Pairwise.nil
      (fun t _ => ⟨fun e he => absurd he (List.not_mem_nil e),
        fun e he => absurd he (List.not_mem_nil e)⟩)
    exact ⟨hch1, hch2, rfl⟩

/-- C2 amended-claim witness: in the concrete run `c2ops` both logs are
separately chronological and the run output is their concatenation. -/
theorem C2_separate_logs_witness :
    Chronological c2final.events ∧ Chronological c2final.cen_events ∧
    run_result c2final.events c2final.cen_events =
      c2final.events ++ c2final.cen_events := by
  exact (C2_separate_logs 2).2 2 c2ops c2final rfl (by decide)

end Sandwich
